import Mathlib

/-!
Shallow embedding of the entry-normalization and temporal-aggregation pipeline of
`pyqt-journal-times` (`source/tools.py` and `source/graph.py`), together with
theorems settling the specification claims about it.

Conventions of the embedding:
* a naive Python `datetime` is represented either by its six calendar components
  (`DateTime`) or by the integer count of seconds since 0001-01-01 00:00:00
  proleptic Gregorian (`ℤ`); `matplotlib.dates.date2num` day numbers are `ℚ`;
* Python exceptions (`ValueError`, `KeyError`, `IndexError`) are `Option.none`;
* the viewer timezone (`tzlocal.get_localzone()`) is a parameter `Tz`: the offset
  in minutes that Python resolves for a *naive local wall-clock* datetime;
* the matplotlib colormap `cm.gist_ncar` composed with `to_rgba` byte conversion
  is a parameter `cmap0 : ℚ → Color` sampled at the normalized position.
-/

namespace JournalTimes

/-! ### Calendar arithmetic (proleptic Gregorian, as Python `datetime`) -/

def isLeap (y : ℕ) : Bool :=
  (y % 4 = 0 && y % 100 != 0) || y % 400 = 0

def daysInMonth (y m : ℕ) : ℕ :=
  if m = 2 then (if isLeap y then 29 else 28)
  else if m = 4 ∨ m = 6 ∨ m = 9 ∨ m = 11 then 30
  else 31

def daysBeforeMonth (y m : ℕ) : ℕ :=
  ((List.range (m - 1)).map (fun i => daysInMonth y (i + 1))).sum

/-- Python `date(y, m, d).toordinal()`: day number with 0001-01-01 = 1. -/
def toOrdinal (y m d : ℕ) : ℕ :=
  365 * (y - 1) + (y - 1) / 4 - (y - 1) / 100 + (y - 1) / 400 + daysBeforeMonth y m + d

/-- The six components of a naive Python `datetime`. -/
structure DateTime where
  year : ℕ
  month : ℕ
  day : ℕ
  hour : ℕ
  minute : ℕ
  second : ℕ
  deriving DecidableEq, Repr

/-- Seconds since 0001-01-01 00:00:00 of the given naive datetime components. -/
def dtSecs (y m d h mi s : ℕ) : ℤ :=
  86400 * (toOrdinal y m d : ℤ) + 3600 * (h : ℤ) + 60 * (mi : ℤ) + (s : ℤ)

def DateTime.secs (dt : DateTime) : ℤ :=
  dtSecs dt.year dt.month dt.day dt.hour dt.minute dt.second

/-! ### Digit scanning, mirroring CPython `_strptime`'s compiled regex -/

def isDigitC (c : Char) : Bool := 48 ≤ c.toNat && c.toNat ≤ 57

def digitVal (c : Char) : ℕ := c.toNat - 48

/-- Maximal digit prefix of a character list, and the remainder. -/
def takeDigits : List Char → List Char × List Char
  | [] => ([], [])
  | c :: cs =>
    if isDigitC c then
      let p := takeDigits cs
      (c :: p.1, p.2)
    else ([], c :: cs)

def natOfDigits (ds : List Char) : ℕ := ds.foldl (fun a c => 10 * a + digitVal c) 0

/-- `datetime.strptime(date_str, "%Y-%m-%dT%H:%M:%SZ")` as called by
`str_to_date` in `source/tools.py`.  CPython compiles the format to the regex
`(?P<Y>\d\d\d\d)-(?P<m>1[0-2]|0[1-9]|[1-9])-(?P<d>3[01]|[12]\d|0[1-9]|[1-9])
T(?P<H>2[0-3]|[0-1]\d|\d):(?P<M>[0-5]\d|\d):(?P<S>6[0-1]|[0-5]\d|\d)Z`
with `re.IGNORECASE`, requires the whole string to be consumed, and then the
`datetime` constructor re-validates the components (year ≥ 1, day within the
month, second ≤ 59).  Since every field is followed by a non-digit delimiter,
the regex fields are exactly the maximal digit runs between the delimiters. -/
def strptimeDayOne (str : String) : Option DateTime :=
  let p1 := takeDigits str.data
  match p1.2 with
  | c1 :: r1 =>
    if c1 = '-' then
      let p2 := takeDigits r1
      match p2.2 with
      | c2 :: r2 =>
        if c2 = '-' then
          let p3 := takeDigits r2
          match p3.2 with
          | c3 :: r3 =>
            if c3 = 'T' ∨ c3 = 't' then
              let p4 := takeDigits r3
              match p4.2 with
              | c4 :: r4 =>
                if c4 = ':' then
                  let p5 := takeDigits r4
                  match p5.2 with
                  | c5 :: r5 =>
                    if c5 = ':' then
                      let p6 := takeDigits r5
                      match p6.2 with
                      | [c6] =>
                        if c6 = 'Z' ∨ c6 = 'z' then
                          let y := natOfDigits p1.1
                          let mo := natOfDigits p2.1
                          let d := natOfDigits p3.1
                          let h := natOfDigits p4.1
                          let mi := natOfDigits p5.1
                          let s := natOfDigits p6.1
                          if p1.1.length = 4 ∧
                              (p2.1.length = 1 ∧ 1 ≤ mo ∨
                                p2.1.length = 2 ∧ 1 ≤ mo ∧ mo ≤ 12) ∧
                              (p3.1.length = 1 ∧ 1 ≤ d ∨
                                p3.1.length = 2 ∧ 1 ≤ d ∧ d ≤ 31) ∧
                              (p4.1.length = 1 ∨ p4.1.length = 2 ∧ h ≤ 23) ∧
                              (p5.1.length = 1 ∨ p5.1.length = 2 ∧ mi ≤ 59) ∧
                              (p6.1.length = 1 ∨ p6.1.length = 2 ∧ s ≤ 61) then
                            if 1 ≤ y ∧ d ≤ daysInMonth y mo ∧ s ≤ 59 then
                              some ⟨y, mo, d, h, mi, s⟩
                            else none
                          else none
                        else none
                      | _ => none
                    else none
                  | _ => none
                else none
              | _ => none
            else none
          | _ => none
        else none
      | _ => none
    else none
  | _ => none

/-! ### Timestamp normalization (`str_to_date` in `source/tools.py`) -/

/-- The viewer's local timezone.  `offsetAtLocal t` is the UTC offset in minutes
that Python resolves when the naive datetime `t` (seconds count) is interpreted
as local wall-clock time — which is what `utc_time.astimezone(local_timezone)`
does to the *naive* `utc_time`, since a naive datetime is presumed to be in the
system timezone. -/
structure Tz where
  offsetAtLocal : ℤ → ℤ

/-- `str_to_date` from `source/tools.py`: parse the fixed-format string, then add
the offset obtained from `utc_time.astimezone(local_timezone).utcoffset()`.
The intermediate `utc_time.replace(tzinfo=pytz.utc)` in the source is assigned
and immediately overwritten, so it has no effect: the offset is resolved with
the UTC digits read as local wall-clock time. -/
def str_to_date (tz : Tz) (date_str : String) : Option ℤ :=
  (strptimeDayOne date_str).map (fun dt => dt.secs + 60 * tz.offsetAtLocal dt.secs)

/-- Modelled from the spec: section 4.2's `normalize` resolves the viewer
timezone's UTC offset **at the entry's own instant** (the parsed UTC time, as an
instant), then adds it to the naive UTC datetime.  `offsetAtInstant` gives the
zone's offset in minutes as a function of the UTC instant. -/
def specNormalize (offsetAtInstant : ℤ → ℤ) (date_str : String) : Option ℤ :=
  (strptimeDayOne date_str).map (fun dt => dt.secs + 60 * offsetAtInstant dt.secs)

/-! ### Day numbers (`matplotlib.dates.date2num` / `num2date`) -/

/-- `dates.date2num` of a naive datetime given as a seconds count: real-valued
day number whose fractional part is the fraction of the day elapsed. -/
def dt2num (s : ℤ) : ℚ := (s : ℚ) / 86400

/-- Python `int()` on a real number: truncation toward zero. -/
def pyInt (q : ℚ) : ℤ := if 0 ≤ q then ⌊q⌋ else ⌈q⌉

/-- Python `x % 1` on floats: `x - ⌊x⌋`. -/
def fracPart (q : ℚ) : ℚ := q - ⌊q⌋

/-- `dates.num2date(q).hour`: the hour of the day encoded by the fractional part
of a day number. -/
def hourIdx (q : ℚ) : ℕ := (⌊fracPart q * 24⌋).toNat

/-- `date2num(date.date())`: the (integer) day number of a datetime's date. -/
def dayOfSecs (s : ℤ) : ℤ := s.ediv 86400

/-- The `.hour` component of a naive datetime given as a seconds count. -/
def hourOfSecs (s : ℤ) : ℕ := ((s.emod 86400).ediv 3600).toNat

/-! ### Entries and tags (`source/types.py`, `find_tags` in `source/tools.py`) -/

/-- A Day One entry, restricted to the fields the core pipeline reads.
`tags = none` models an entry without the `"tags"` key. -/
structure Entry where
  creationDate : String
  tags : Option (List String)
  deriving DecidableEq, Repr

/-- The tag chosen for an entry in `parse_entries` (`source/graph.py`):
`entry["tags"][0]` if the key is present — an `IndexError` (`Option.none`) when
the list is empty — else the string `"none"`. -/
def primaryTagOf (e : Entry) : Option String :=
  match e.tags with
  | some ts => ts.head?
  | none => some "none"

/-- The list comprehension in `find_tags`:
`[entry["tags"][0] for entry in entries if "tags" in entry]`; `Option.none`
models the `IndexError` raised on a present-but-empty tags list. -/
def firstTagsList : List Entry → Option (List String)
  | [] => some []
  | e :: es =>
    match e.tags with
    | none => firstTagsList es
    | some ts =>
      match ts.head? with
      | none => none
      | some t => (firstTagsList es).map (fun l => t :: l)

/-- Python `sorted(list(set(l)))`: the strictly sorted enumeration of the
distinct elements of `l`. -/
def pySortedSet (l : List String) : List String :=
  l.dedup.insertionSort (· ≤ ·)

/-- `find_tags` from `source/tools.py`. -/
def find_tags (entries : List Entry) : Option (List String) :=
  (firstTagsList entries).map (fun avail => pySortedSet (avail ++ ["none"]))

/-! ### Colors (`calc_color_map` in `source/tools.py`) -/

/-- An RGBA color. -/
abbrev Color := ℚ × ℚ × ℚ × ℚ

/-- `matplotlib.colors.Normalize(vmin=0, vmax, clip=True)` applied to `x`. -/
def pyNormalize (vmax : ℚ) (x : ℚ) : ℚ := max 0 (min 1 (x / vmax))

/-- Insertion of one key into a string-keyed dictionary (later wins). -/
def dictUpd (m : String → Option Color) (k : String) (v : Color) :
    String → Option Color :=
  fun q => if q = k then some v else m q

/-- `calc_color_map` from `source/tools.py`: the dict comprehension
`{tag: mapper.to_rgba(index) for index, tag in enumerate(tags) if tag != "none"}`
followed by `color_map["none"] = (0.0, 0.0, 0.0, 1.0)`, where
`mapper.to_rgba(index) = cmap0 (Normalize(0, len(tags), clip=True)(index))`. -/
def calc_color_map (cmap0 : ℚ → Color) (tags : List String) :
    String → Option Color :=
  dictUpd
    (tags.enum.foldl
      (fun m p =>
        if p.2 = "none" then m
        else dictUpd m p.2 (cmap0 (pyNormalize (tags.length : ℚ) (p.1 : ℚ))))
      (fun _ => (none : Option Color)))
    "none" (0, 0, 0, 1)

/-! ### Point projection (`parse_entries` of `DotPlot` and of `Histogram`) -/

/-- The `Dot` TypedDict of `source/types.py`. -/
structure Dot where
  color : Color
  tag : String
  x_value : ℚ
  y_value : ℚ
  deriving DecidableEq, Repr

/-- `min(self.entries, key=lambda entry: entry["creationDate"])`: first entry
with the lexicographically smallest `creationDate` string; `ValueError`
(`Option.none`) on an empty sequence. -/
def argminEntry : List Entry → Option Entry
  | [] => none
  | e :: es =>
    some (es.foldl (fun best x => if x.creationDate < best.creationDate then x else best) e)

/-- The entry loop of `DotPlot.parse_entries`:
`x_val = date2num(date.date())`, `y_val = int(x_0) + date2num(date) % 1`. -/
def dotsFromEntriesDot (tz : Tz) (cm : String → Option Color) (x0 : ℚ) :
    List Entry → Option (List Dot)
  | [] => some []
  | e :: es =>
    match str_to_date tz e.creationDate with
    | none => none
    | some s =>
      match primaryTagOf e with
      | none => none
      | some tag =>
        match cm tag with
        | none => none
        | some c =>
          match dotsFromEntriesDot tz cm x0 es with
          | none => none
          | some rest =>
            some (⟨c, tag, ((dayOfSecs s : ℤ) : ℚ),
              ((pyInt x0 : ℤ) : ℚ) + fracPart (dt2num s)⟩ :: rest)

/-- The entry loop of `Histogram.parse_entries`:
identical except `y_val = int(x_0) + date2num(date)` (no `% 1`). -/
def dotsFromEntriesHist (tz : Tz) (cm : String → Option Color) (x0 : ℚ) :
    List Entry → Option (List Dot)
  | [] => some []
  | e :: es =>
    match str_to_date tz e.creationDate with
    | none => none
    | some s =>
      match primaryTagOf e with
      | none => none
      | some tag =>
        match cm tag with
        | none => none
        | some c =>
          match dotsFromEntriesHist tz cm x0 es with
          | none => none
          | some rest =>
            some (⟨c, tag, ((dayOfSecs s : ℤ) : ℚ),
              ((pyInt x0 : ℤ) : ℚ) + dt2num s⟩ :: rest)

/-- `DotPlot.parse_entries` from `source/graph.py`. -/
def DotPlot_parse_entries (tz : Tz) (cm : String → Option Color)
    (entries : List Entry) : Option (List Dot × ℚ) :=
  match argminEntry entries with
  | none => none
  | some earliest =>
    match str_to_date tz earliest.creationDate with
    | none => none
    | some s0 =>
      match dotsFromEntriesDot tz cm (dt2num s0) entries with
      | none => none
      | some dots => some (dots, dt2num s0)

/-- `Histogram.parse_entries` from `source/graph.py`. -/
def Histogram_parse_entries (tz : Tz) (cm : String → Option Color)
    (entries : List Entry) : Option (List Dot × ℚ) :=
  match argminEntry entries with
  | none => none
  | some earliest =>
    match str_to_date tz earliest.creationDate with
    | none => none
    | some s0 =>
      match dotsFromEntriesHist tz cm (dt2num s0) entries with
      | none => none
      | some dots => some (dots, dt2num s0)

/-- What each produced dot of `DotPlot.parse_entries` is, entrywise. -/
def DotSpecD (tz : Tz) (cm : String → Option Color) (x0 : ℚ) (e : Entry) (d : Dot) : Prop :=
  ∃ s tag, str_to_date tz e.creationDate = some s ∧ primaryTagOf e = some tag ∧
    cm tag = some d.color ∧ d.tag = tag ∧
    d.x_value = ((dayOfSecs s : ℤ) : ℚ) ∧
    d.y_value = ((pyInt x0 : ℤ) : ℚ) + fracPart (dt2num s)

/-- What each produced dot of `Histogram.parse_entries` is, entrywise. -/
def DotSpecH (tz : Tz) (cm : String → Option Color) (x0 : ℚ) (e : Entry) (d : Dot) : Prop :=
  ∃ s tag, str_to_date tz e.creationDate = some s ∧ primaryTagOf e = some tag ∧
    cm tag = some d.color ∧ d.tag = tag ∧
    d.x_value = ((dayOfSecs s : ℤ) : ℚ) ∧
    d.y_value = ((pyInt x0 : ℤ) : ℚ) + dt2num s

/-- The local hour of an entry under the code's normalization, used to state
counting properties: `str_to_date(entry).hour`. -/
def localHour (tz : Tz) (e : Entry) : Option ℕ :=
  (str_to_date tz e.creationDate).map hourOfSecs

/-! ### Histogram aggregation (`Histogram.gen_hour_histogram_data`) -/

/-- The inner loop of `gen_hour_histogram_data` for one tag: the dict
`{0: 0, …, 24: 0}` (as a 25-slot list) with `tag_freq[num2date(y).hour] += 1`
for each matching dot. -/
def tagFreq (tag : String) (dots : List Dot) : List ℕ :=
  dots.foldl
    (fun acc d =>
      if d.tag = tag then
        acc.set (hourIdx d.y_value) (acc.getD (hourIdx d.y_value) 0 + 1)
      else acc)
    (List.replicate 25 0)

/-- `Histogram.gen_hour_histogram_data` from `source/graph.py`: for each tag the
bucket counts re-keyed by `date2num(num2date(int(x_0)) + hour * 1h)`, i.e. the
day number `int(x_0) + hour / 24`. -/
def gen_hour_histogram_data (tags : List String) (dots : List Dot) (x0 : ℚ) :
    List (String × List (ℚ × ℕ)) :=
  tags.map (fun tag =>
    (tag,
      (List.range 25).map (fun (h : ℕ) =>
        (((pyInt x0 : ℤ) : ℚ) + (h : ℚ) / 24, (tagFreq tag dots).getD h 0))))

/-! ### Composed pipelines, in the order of `DotPlot.__init__` / `Histogram.__init__` -/

/-- `DotPlot.__init__` data pipeline: `find_tags`, `calc_color_map`,
`parse_entries`; result `(tags, dots, x_0)`. -/
def dotPlotData (tz : Tz) (cmap0 : ℚ → Color) (entries : List Entry) :
    Option (List String × List Dot × ℚ) :=
  match find_tags entries with
  | none => none
  | some tags =>
    match DotPlot_parse_entries tz (calc_color_map cmap0 tags) entries with
    | none => none
    | some pr => some (tags, pr.1, pr.2)

/-- `Histogram.__init__` data pipeline: `find_tags`, `calc_color_map`,
`parse_entries`, `gen_hour_histogram_data`; result `(tags, dots, x_0, hist)`. -/
def histogramData (tz : Tz) (cmap0 : ℚ → Color) (entries : List Entry) :
    Option (List String × List Dot × ℚ × List (String × List (ℚ × ℕ))) :=
  match find_tags entries with
  | none => none
  | some tags =>
    match Histogram_parse_entries tz (calc_color_map cmap0 tags) entries with
    | none => none
    | some pr => some (tags, pr.1, pr.2, gen_hour_histogram_data tags pr.1 pr.2)

/-! ### Export loading (`extract_json` in `source/tools.py`) -/

/-- A parsed JSON document. -/
inductive JValue where
  | null
  | bool (b : Bool)
  | num (q : ℚ)
  | str (s : String)
  | arr (xs : List JValue)
  | obj (kvs : List (String × JValue))

/-- `extract_json` from `source/tools.py`: `json.load` the file and return the
result unchanged.  The argument is the outcome of `json.load` (`none` for a
syntactically invalid source, which raises); no key validation is performed. -/
def extract_json (parsed : Option JValue) : Option JValue := parsed

/-- Python `dict` subscript on a JSON object (`full_json["entries"]` in
`DotPlot.__init__` / `Histogram.__init__`); duplicate keys in a JSON source
resolve to the last occurrence, and a missing key is a `KeyError`. -/
def getItem (v : JValue) (k : String) : Option JValue :=
  match v with
  | JValue.obj kvs =>
    match kvs.reverse.find? (fun p => p.1 == k) with
    | some p => some p.2
    | none => none
  | _ => none

/-! ### Rendering the strict fixed format, and concrete fixtures -/

def digitChar (n : ℕ) : Char :=
  match n with
  | 0 => '0' | 1 => '1' | 2 => '2' | 3 => '3' | 4 => '4'
  | 5 => '5' | 6 => '6' | 7 => '7' | 8 => '8' | _ => '9'

def pad2 (n : ℕ) : List Char := [digitChar (n / 10), digitChar (n % 10)]

def pad4 (n : ℕ) : List Char :=
  [digitChar (n / 1000), digitChar (n / 100 % 10), digitChar (n / 10 % 10), digitChar (n % 10)]

/-- The strict, zero-padded rendering `YYYY-MM-DDTHH:MM:SSZ` of a datetime. -/
def renderStrict (dt : DateTime) : String :=
  ⟨pad4 dt.year ++ '-' :: pad2 dt.month ++ '-' :: pad2 dt.day ++ 'T' :: pad2 dt.hour ++
    ':' :: pad2 dt.minute ++ ':' :: pad2 dt.second ++ ['Z']⟩

/-- The spec's fixed timestamp layout `YYYY-MM-DDTHH:MM:SSZ` (section 3), stated
as the syntactic shape of the string: exactly 4-2-2-2-2-2 digits with the
literal separators. -/
def specStrictFormat (s : String) : Bool :=
  match s.data with
  | [y1, y2, y3, y4, a1, m1, m2, a2, d1, d2, a3, h1, h2, a4, i1, i2, a5, s1, s2, a6] =>
    isDigitC y1 && isDigitC y2 && isDigitC y3 && isDigitC y4 &&
    (a1 == '-') && isDigitC m1 && isDigitC m2 &&
    (a2 == '-') && isDigitC d1 && isDigitC d2 &&
    (a3 == 'T') && isDigitC h1 && isDigitC h2 &&
    (a4 == ':') && isDigitC i1 && isDigitC i2 &&
    (a5 == ':') && isDigitC s1 && isDigitC s2 &&
    (a6 == 'Z')
  | _ => false

/-- The calendar-validity conditions the Python `datetime` constructor enforces
on parsed components. -/
def validDT (dt : DateTime) : Prop :=
  1 ≤ dt.year ∧ dt.year ≤ 9999 ∧ 1 ≤ dt.month ∧ dt.month ≤ 12 ∧
  1 ≤ dt.day ∧ dt.day ≤ daysInMonth dt.year dt.month ∧
  dt.hour ≤ 23 ∧ dt.minute ≤ 59 ∧ dt.second ≤ 59

/-- A viewer timezone with offset fixed at UTC. -/
def tzUTC : Tz := ⟨fun _ => 0⟩

/-- A viewer timezone fixed at UTC-5 (offset −300 minutes, no DST). -/
def tzM300 : Tz := ⟨fun _ => -300⟩

/-- An injective stand-in for the `gist_ncar` colormap sampling. -/
def cmapTest : ℚ → Color := fun q => (q, q, q, 1)

/-- A US-Eastern-style timezone for 2024, as Python resolves it from a naive
local wall-clock datetime (fold 0): EDT (−240) between the local transition
datetimes 2024-03-10 02:00 and 2024-11-03 02:00, EST (−300) otherwise. -/
def eastern2024 : Tz :=
  ⟨fun t => if dtSecs 2024 3 10 2 0 0 ≤ t ∧ t < dtSecs 2024 11 3 2 0 0 then -240 else -300⟩

/-- The same US-Eastern-style zone as a function of the UTC instant: EDT between
2024-03-10 07:00 UTC and 2024-11-03 06:00 UTC, EST otherwise. -/
def easternInstant2024 : ℤ → ℤ :=
  fun t => if dtSecs 2024 3 10 7 0 0 ≤ t ∧ t < dtSecs 2024 11 3 6 0 0 then -240 else -300

/-! ### Helper lemmas -/

theorem getD_replicate_zero (n h : ℕ) : (List.replicate n (0 : ℕ)).getD h 0 = 0 := by
  induction n generalizing h with
  | zero => cases h <;> rfl
  | succ n ih => cases h <;> simp [List.replicate, List.getD, ih]

theorem mem_firstTagsList (t : String) :
    ∀ (entries : List Entry) (av : List String), firstTagsList entries = some av →
      (t ∈ av ↔ ∃ e ∈ entries, e.tags ≠ none ∧ primaryTagOf e = some t) := by
  intro entries
  induction entries with
  | nil =>
    intro av h
    simp only [firstTagsList, Option.some.injEq] at h
    subst h
    simp
  | cons e es ih =>
    intro av h
    cases he : e.tags with
    | none =>
      simp only [firstTagsList, he] at h
      rw [ih av h]
      constructor
      · rintro ⟨e₁, he₁, hne, hp⟩
        exact ⟨e₁, List.mem_cons_of_mem _ he₁, hne, hp⟩
      · rintro ⟨e₁, he₁, hne, hp⟩
        rcases List.mem_cons.mp he₁ with rfl | hmem
        · exact absurd he hne
        · exact ⟨e₁, hmem, hne, hp⟩
    | some ts =>
      cases ts with
      | nil => simp [firstTagsList, he] at h
      | cons t0 ts =>
        simp only [firstTagsList, he, List.head?] at h
        cases hes : firstTagsList es with
        | none => rw [hes] at h; simp at h
        | some av' =>
          rw [hes] at h
          simp only [Option.map_some', Option.some.injEq] at h
          subst h
          simp only [List.mem_cons]
          constructor
          · rintro (rfl | hmem)
            · exact ⟨e, Or.inl rfl, by simp [he], by simp [primaryTagOf, he]⟩
            · obtain ⟨e₁, he₁, hne, hp⟩ := (ih av' hes).mp hmem
              exact ⟨e₁, Or.inr he₁, hne, hp⟩
          · rintro ⟨e₁, he₁, hne, hp⟩
            rcases he₁ with rfl | hmem
            · left
              simp only [primaryTagOf, he, List.head?, Option.some.injEq] at hp
              exact hp.symm
            · right
              exact (ih av' hes).mpr ⟨e₁, hmem, hne, hp⟩

theorem pySortedSet_sorted (l : List String) : (pySortedSet l).Sorted (· ≤ ·) :=
  List.sorted_insertionSort _ _

theorem pySortedSet_nodup (l : List String) : (pySortedSet l).Nodup :=
  (List.perm_insertionSort _ _).nodup_iff.mpr l.nodup_dedup

theorem mem_pySortedSet (t : String) (l : List String) : t ∈ pySortedSet l ↔ t ∈ l :=
  Iff.trans ((List.perm_insertionSort _ _).mem_iff) l.mem_dedup

/-- Full characterization of a successful `find_tags` result. -/
theorem find_tags_spec (entries : List Entry) (l : List String)
    (h : find_tags entries = some l) :
    l.Sorted (· ≤ ·) ∧ l.Nodup ∧ "none" ∈ l ∧
    (∀ t, t ∈ l ↔ t = "none" ∨ ∃ e ∈ entries, primaryTagOf e = some t) ∧
    (∀ l₂ : List String, l₂.Sorted (· ≤ ·) → l₂.Nodup →
      (∀ t, t ∈ l₂ ↔ t ∈ l) → l₂ = l) := by
  obtain ⟨av, hav, rfl⟩ : ∃ av, firstTagsList entries = some av ∧
      l = pySortedSet (av ++ ["none"]) := by
    unfold find_tags at h
    cases hfl : firstTagsList entries with
    | none => rw [hfl] at h; simp at h
    | some av =>
      rw [hfl] at h
      simp only [Option.map_some', Option.some.injEq] at h
      exact ⟨av, rfl, h.symm⟩
  refine ⟨pySortedSet_sorted _, pySortedSet_nodup _, ?_, ?_, ?_⟩
  · rw [mem_pySortedSet]
    simp
  · intro t
    rw [mem_pySortedSet, List.mem_append]
    constructor
    · rintro (hmem | hmem)
      · obtain ⟨e, he, _, hp⟩ := (mem_firstTagsList t entries av hav).mp hmem
        exact Or.inr ⟨e, he, hp⟩
      · simp only [List.mem_singleton] at hmem
        exact Or.inl hmem
    · rintro (rfl | ⟨e, he, hp⟩)
      · right; simp
      · cases het : e.tags with
        | none =>
          right
          simp only [primaryTagOf, het, Option.some.injEq] at hp
          simp [hp]
        | some ts =>
          left
          exact (mem_firstTagsList t entries av hav).mpr ⟨e, he, by simp [het], hp⟩
  · intro l₂ hs₂ hnd₂ hmem₂
    refine List.eq_of_perm_of_sorted ?_ hs₂ (pySortedSet_sorted _)
    exact (List.perm_ext_iff_of_nodup hnd₂ (pySortedSet_nodup _)).mpr hmem₂

/-! ### C6 -/

/-- C6: when `find_tags` succeeds, it returns the deduplicated set of the
entries' primary tags with `"none"` always included, sorted lexicographically
ascending; the characterization (sortedness, no duplicates, membership) pins
the output uniquely, which is the determinism the spec demands. -/
theorem c6_find_tags (entries : List Entry) (l : List String)
    (h : find_tags entries = some l) :
    l.Sorted (· ≤ ·) ∧ l.Nodup ∧ "none" ∈ l ∧
    (∀ t, t ∈ l ↔ t = "none" ∨ ∃ e ∈ entries, primaryTagOf e = some t) ∧
    (∀ l₂ : List String, l₂.Sorted (· ≤ ·) → l₂.Nodup →
      (∀ t, t ∈ l₂ ↔ t ∈ l) → l₂ = l) :=
  find_tags_spec entries l h

theorem c6_witness :
    ((["home", "none", "work"] : List String).Sorted (· ≤ ·) ∧
      (["home", "none", "work"] : List String).Nodup ∧
      "none" ∈ (["home", "none", "work"] : List String) ∧
      (∀ t, t ∈ (["home", "none", "work"] : List String) ↔ t = "none" ∨
        ∃ e ∈ [(⟨"2024-01-02T00:00:00Z", some ["work", "x"]⟩ : Entry),
               ⟨"2024-01-01T00:00:00Z", some ["home"]⟩,
               ⟨"2024-01-03T00:00:00Z", none⟩], primaryTagOf e = some t) ∧
      (∀ l₂ : List String, l₂.Sorted (· ≤ ·) → l₂.Nodup →
        (∀ t, t ∈ l₂ ↔ t ∈ (["home", "none", "work"] : List String)) →
          l₂ = ["home", "none", "work"])) :=
  c6_find_tags
    [⟨"2024-01-02T00:00:00Z", some ["work", "x"]⟩,
     ⟨"2024-01-01T00:00:00Z", some ["home"]⟩,
     ⟨"2024-01-03T00:00:00Z", none⟩]
    ["home", "none", "work"]
    (by norm_num +decide [find_tags, firstTagsList, pySortedSet,
      List.insertionSort, List.orderedInsert, List.dedup])

/-! ### Color-map lookup lemmas -/

theorem dict_foldl_notmem (cmap0 : ℚ → Color) (len : ℚ) :
    ∀ (ps : List (ℕ × String)) (m : String → Option Color) (k : String),
      (∀ p ∈ ps, p.2 ≠ k) →
      (ps.foldl
        (fun m p => if p.2 = "none" then m
          else dictUpd m p.2 (cmap0 (pyNormalize len (p.1 : ℚ)))) m) k = m k := by
  intro ps
  induction ps with
  | nil => intro m k _; rfl
  | cons q ps ih =>
    intro m k h
    simp only [List.foldl_cons]
    rw [ih _ _ (fun p hp => h p (List.mem_cons_of_mem _ hp))]
    have hqk : q.2 ≠ k := h q (List.mem_cons_self q ps)
    by_cases hq : q.2 = "none"
    · rw [if_pos hq]
    · rw [if_neg hq, dictUpd, if_neg (fun hk => hqk hk.symm)]

theorem dict_foldl_mem (cmap0 : ℚ → Color) (len : ℚ) :
    ∀ (ps : List (ℕ × String)) (m : String → Option Color) (i : ℕ) (k : String),
      (i, k) ∈ ps → k ≠ "none" → (ps.map Prod.snd).Nodup →
      (ps.foldl
        (fun m p => if p.2 = "none" then m
          else dictUpd m p.2 (cmap0 (pyNormalize len (p.1 : ℚ)))) m) k =
        some (cmap0 (pyNormalize len (i : ℚ))) := by
  intro ps
  induction ps with
  | nil => intro m i k h; simp at h
  | cons q ps ih =>
    intro m i k hmem hknone hnd
    simp only [List.map_cons, List.nodup_cons] at hnd
    rcases List.mem_cons.mp hmem with heq | hmem'
    · have hq2 : q.2 = k := by rw [← heq]
      have hq1 : q.1 = i := by rw [← heq]
      simp only [List.foldl_cons]
      rw [dict_foldl_notmem cmap0 len ps _ k
        (fun p hp hpk => hnd.1 (by rw [hq2, ← hpk]; exact List.mem_map_of_mem Prod.snd hp))]
      rw [if_neg (hq2 ▸ hknone), dictUpd, if_pos hq2.symm, hq1]
    · have hq2 : q.2 ≠ k := by
        intro hc
        exact hnd.1 (hc ▸ (hmem' |> List.mem_map_of_mem Prod.snd))
      simp only [List.foldl_cons]
      exact ih _ i k hmem' hknone hnd.2

/-! ### C7 -/

/-- C7 (amended): each tag distinct from `"none"` at 0-indexed position `i` in
the **full** sorted tag list (with `"none"` occupying its own slot in the
indexing) is mapped to the palette sample at the clipped normalized position
`i / len(tags)`, where the denominator also counts `"none"`; the mapping is a
pure function of the tag list. -/
theorem c7_amended (cmap0 : ℚ → Color) (tags : List String) (i : ℕ) (tag : String)
    (hget : tags[i]? = some tag) (hne : tag ≠ "none") (hnd : tags.Nodup) :
    calc_color_map cmap0 tags tag =
      some (cmap0 (pyNormalize (tags.length : ℚ) (i : ℚ))) := by
  unfold calc_color_map
  rw [dictUpd, if_neg hne]
  refine dict_foldl_mem cmap0 _ tags.enum _ i tag ?_ hne ?_
  · exact List.mk_mem_enum_iff_getElem?.mpr hget
  · rw [List.enum_map_snd]
    exact hnd

theorem c7_witness :
    calc_color_map cmapTest ["home", "none", "work"] "work" =
      some (cmapTest (pyNormalize (((["home", "none", "work"] : List String).length : ℕ) : ℚ)
        ((2 : ℕ) : ℚ))) :=
  c7_amended cmapTest ["home", "none", "work"] 2 "work" rfl (by decide) (by decide)

/-! ### C8 -/

/-- C8: for every colormap sampling and every tag list, the computed color map
assigns the tag `"none"` the fixed opaque black color `(0, 0, 0, 1)`, regardless
of which other tags are present. -/
theorem c8_none_black (cmap0 : ℚ → Color) (tags : List String) :
    calc_color_map cmap0 tags "none" = some (0, 0, 0, 1) := by
  simp [calc_color_map, dictUpd]

/-! ### C5 -/

/-- C5 (counterexample): an entry whose `tags` key is present but empty does not
get the sentinel primary tag `"none"`; `entry["tags"][0]` raises `IndexError`
(modelled as `Option.none`). -/
theorem c5_counterexample :
    primaryTagOf ⟨"2024-01-15T14:30:00Z", some []⟩ = none ∧
    (none : Option String) ≠ some "none" := by
  exact ⟨rfl, by simp⟩

/-- C5 (amended): the primary tag is the first element of `tags` when the key is
present with a non-empty sequence, and `"none"` when the key is absent; when the
key is present with an empty sequence, parsing raises (`Option.none`) instead of
assigning `"none"`. -/
theorem c5_amended (e : Entry) :
    (e.tags = none → primaryTagOf e = some "none") ∧
    (∀ t ts, e.tags = some (t :: ts) → primaryTagOf e = some t) ∧
    (e.tags = some [] → primaryTagOf e = none) := by
  refine ⟨fun h => ?_, fun t ts h => ?_, fun h => ?_⟩ <;> simp [primaryTagOf, h]

theorem c5_witness :
    primaryTagOf ⟨"2024-01-15T14:30:00Z", none⟩ = some "none" ∧
    primaryTagOf ⟨"2024-01-15T14:30:00Z", some ["work", "play"]⟩ = some "work" := by
  exact ⟨(c5_amended ⟨"2024-01-15T14:30:00Z", none⟩).1 rfl,
    (c5_amended ⟨"2024-01-15T14:30:00Z", some ["work", "play"]⟩).2.1 "work" ["play"] rfl⟩

/-! ### C1 -/

/-- C1 (counterexample): on an export with an empty `entries` sequence, both
pipelines raise (`min()` of an empty sequence is a `ValueError`) instead of
returning an explicit empty point sequence and an all-zero histogram. -/
theorem c1_counterexample :
    dotPlotData tzUTC cmapTest [] = none ∧
    histogramData tzUTC cmapTest [] = none ∧
    (dotPlotData tzUTC cmapTest []).isSome = false := by
  exact ⟨rfl, rfl, rfl⟩

/-- C1 (amended): on an empty entries sequence both `parse_entries`
implementations raise `ValueError` (`min()` of an empty sequence), so neither
pipeline produces downstream views; the standalone aggregation step, if it were
given the empty dot list and the tag list `["none"]`, would produce all-zero
counts across all 25 buckets for the `"none"` tag only. -/
theorem c1_empty_behavior (tz : Tz) (cmap0 : ℚ → Color) (x0 : ℚ) :
    dotPlotData tz cmap0 [] = none ∧
    histogramData tz cmap0 [] = none ∧
    gen_hour_histogram_data ["none"] [] x0 =
      [("none", (List.range 25).map (fun (h : ℕ) => (((pyInt x0 : ℤ) : ℚ) + (h : ℚ) / 24, 0)))] := by
  refine ⟨rfl, rfl, ?_⟩
  simp only [gen_hour_histogram_data, tagFreq, List.foldl_nil, List.map_cons, List.map_nil,
    getD_replicate_zero]

/-! ### C10 -/

/-- C10 (counterexample): a syntactically valid document with no `entries` key
is returned by `extract_json` as-is — no error is raised at load time; the
`KeyError` only occurs later when a consumer subscripts `"entries"`. -/
theorem c10_counterexample :
    extract_json (some (JValue.obj [])) = some (JValue.obj []) ∧
    getItem (JValue.obj []) "entries" = none := by
  exact ⟨rfl, rfl⟩

/-- C10 (amended): `extract_json` propagates a parse failure (`json.load`
raising on a syntactically invalid source) but performs no key validation at
all: every successfully parsed document is returned unchanged, whether or not
it has an `entries` key, and the missing-key failure surfaces only as a
`KeyError` when the consumer subscripts `"entries"`. -/
theorem c10_amended :
    (∀ p : Option JValue, extract_json p = p) ∧
    extract_json none = none ∧
    (∀ kvs : List (String × JValue), (∀ pr ∈ kvs, pr.1 ≠ "entries") →
      getItem (JValue.obj kvs) "entries" = none) := by
  refine ⟨fun p => rfl, rfl, fun kvs h => ?_⟩
  simp only [getItem]
  rw [List.find?_eq_none.mpr]
  intro x hx
  simp only [beq_iff_eq]
  exact h x (List.mem_reverse.mp hx)

theorem c10_witness :
    getItem (JValue.obj [("metadata", JValue.null)]) "entries" = none := by
  refine c10_amended.2.2 [("metadata", JValue.null)] ?_
  intro pr hpr
  simp only [List.mem_singleton] at hpr
  subst hpr
  decide

/-! ### Projection unfolding lemmas -/

theorem dotsFromEntriesDot_spec (tz : Tz) (cm : String → Option Color) (x0 : ℚ) :
    ∀ (entries : List Entry) (dots : List Dot),
      dotsFromEntriesDot tz cm x0 entries = some dots →
      List.Forall₂ (DotSpecD tz cm x0) entries dots := by
  intro entries
  induction entries with
  | nil =>
    intro dots h
    simp only [dotsFromEntriesDot, Option.some.injEq] at h
    subst h
    exact List.Forall₂.nil
  | cons e es ih =>
    intro dots h
    cases hs : str_to_date tz e.creationDate with
    | none => simp [dotsFromEntriesDot, hs] at h
    | some s =>
      cases htag : primaryTagOf e with
      | none => simp [dotsFromEntriesDot, hs, htag] at h
      | some tag =>
        cases hc : cm tag with
        | none => simp [dotsFromEntriesDot, hs, htag, hc] at h
        | some c =>
          cases hrest : dotsFromEntriesDot tz cm x0 es with
          | none => simp [dotsFromEntriesDot, hs, htag, hc, hrest] at h
          | some rest =>
            simp only [dotsFromEntriesDot, hs, htag, hc, hrest, Option.some.injEq] at h
            subst h
            exact List.Forall₂.cons ⟨s, tag, hs, htag, hc, rfl, rfl, rfl⟩ (ih rest hrest)

theorem dotsFromEntriesHist_spec (tz : Tz) (cm : String → Option Color) (x0 : ℚ) :
    ∀ (entries : List Entry) (dots : List Dot),
      dotsFromEntriesHist tz cm x0 entries = some dots →
      List.Forall₂ (DotSpecH tz cm x0) entries dots := by
  intro entries
  induction entries with
  | nil =>
    intro dots h
    simp only [dotsFromEntriesHist, Option.some.injEq] at h
    subst h
    exact List.Forall₂.nil
  | cons e es ih =>
    intro dots h
    cases hs : str_to_date tz e.creationDate with
    | none => simp [dotsFromEntriesHist, hs] at h
    | some s =>
      cases htag : primaryTagOf e with
      | none => simp [dotsFromEntriesHist, hs, htag] at h
      | some tag =>
        cases hc : cm tag with
        | none => simp [dotsFromEntriesHist, hs, htag, hc] at h
        | some c =>
          cases hrest : dotsFromEntriesHist tz cm x0 es with
          | none => simp [dotsFromEntriesHist, hs, htag, hc, hrest] at h
          | some rest =>
            simp only [dotsFromEntriesHist, hs, htag, hc, hrest, Option.some.injEq] at h
            subst h
            exact List.Forall₂.cons ⟨s, tag, hs, htag, hc, rfl, rfl, rfl⟩ (ih rest hrest)

theorem DotPlot_parse_entries_spec (tz : Tz) (cm : String → Option Color)
    (entries : List Entry) (dots : List Dot) (x0 : ℚ)
    (h : DotPlot_parse_entries tz cm entries = some (dots, x0)) :
    (∃ e s0, argminEntry entries = some e ∧ str_to_date tz e.creationDate = some s0 ∧
      x0 = dt2num s0) ∧
    List.Forall₂ (DotSpecD tz cm x0) entries dots := by
  unfold DotPlot_parse_entries at h
  cases hmin : argminEntry entries with
  | none => simp [hmin] at h
  | some earliest =>
    simp only [hmin] at h
    cases hs0 : str_to_date tz earliest.creationDate with
    | none => simp [hs0] at h
    | some s0 =>
      simp only [hs0] at h
      cases hdots : dotsFromEntriesDot tz cm (dt2num s0) entries with
      | none => simp [hdots] at h
      | some dots' =>
        simp only [hdots, Option.some.injEq, Prod.mk.injEq] at h
        obtain ⟨rfl, rfl⟩ := h
        exact ⟨⟨earliest, s0, rfl, hs0, rfl⟩,
          dotsFromEntriesDot_spec tz cm (dt2num s0) entries dots' hdots⟩

theorem Histogram_parse_entries_spec (tz : Tz) (cm : String → Option Color)
    (entries : List Entry) (dots : List Dot) (x0 : ℚ)
    (h : Histogram_parse_entries tz cm entries = some (dots, x0)) :
    (∃ e s0, argminEntry entries = some e ∧ str_to_date tz e.creationDate = some s0 ∧
      x0 = dt2num s0) ∧
    List.Forall₂ (DotSpecH tz cm x0) entries dots := by
  unfold Histogram_parse_entries at h
  cases hmin : argminEntry entries with
  | none => simp [hmin] at h
  | some earliest =>
    simp only [hmin] at h
    cases hs0 : str_to_date tz earliest.creationDate with
    | none => simp [hs0] at h
    | some s0 =>
      simp only [hs0] at h
      cases hdots : dotsFromEntriesHist tz cm (dt2num s0) entries with
      | none => simp [hdots] at h
      | some dots' =>
        simp only [hdots, Option.some.injEq, Prod.mk.injEq] at h
        obtain ⟨rfl, rfl⟩ := h
        exact ⟨⟨earliest, s0, rfl, hs0, rfl⟩,
          dotsFromEntriesHist_spec tz cm (dt2num s0) entries dots' hdots⟩

/-! ### C4 -/

/-- C4 (counterexample): for a single entry at local 03:30 the origin returned
by `parse_entries` is `103/48 = 2 + 7/48`, which carries the fractional
time-of-day part, not the date-only day number `2` the claim prescribes; and
the histogram variant's `y_value` is `int(x_0) + date2num(date)` = `199/48`,
not `floor(origin) + fractionalPart(dayNumber)` = `103/48`. -/
theorem c4_counterexample :
    DotPlot_parse_entries tzUTC (calc_color_map cmapTest ["none", "work"])
        [⟨"0001-01-02T03:30:00Z", some ["work"]⟩] =
      some ([⟨(1/2, 1/2, 1/2, 1), "work", 2, 103/48⟩], 103/48) ∧
    ((103 : ℚ)/48) ≠ 2 ∧
    Histogram_parse_entries tzUTC (calc_color_map cmapTest ["none", "work"])
        [⟨"0001-01-02T03:30:00Z", some ["work"]⟩] =
      some ([⟨(1/2, 1/2, 1/2, 1), "work", 2, 199/48⟩], 103/48) ∧
    ((199 : ℚ)/48) ≠ 103/48 := by
  refine ⟨?_, by norm_num, ?_, by norm_num⟩
  · norm_num +decide [DotPlot_parse_entries, dotsFromEntriesDot, argminEntry,
      show str_to_date tzUTC "0001-01-02T03:30:00Z" = some 185400 from by decide,
      show dt2num 185400 = 103/48 from by norm_num [dt2num],
      show pyInt (103/48) = 2 from by norm_num [pyInt],
      show fracPart (103/48) = 7/48 from by norm_num [fracPart],
      show dayOfSecs 185400 = 2 from by decide,
      primaryTagOf, calc_color_map, dictUpd, pyNormalize, List.enum]
    simp [cmapTest]
  · norm_num +decide [Histogram_parse_entries, dotsFromEntriesHist, argminEntry,
      show str_to_date tzUTC "0001-01-02T03:30:00Z" = some 185400 from by decide,
      show dt2num 185400 = 103/48 from by norm_num [dt2num],
      show pyInt (103/48) = 2 from by norm_num [pyInt],
      show dayOfSecs 185400 = 2 from by decide,
      primaryTagOf, calc_color_map, dictUpd, pyNormalize, List.enum]
    simp [cmapTest]

/-- C4 (amended): for every non-empty entry list both projections return the
origin `x_0 = date2num(str_to_date(earliest))`, the **full** local day number of
the entry with the lexicographically smallest `creationDate` string, fractional
time-of-day part included; each dot-plot point has `dayCoordinate`
`date2num(date.date())` and `timeOfDayCoordinate` `int(x_0) + date2num(date) % 1`
(truncation plus fractional part), while each histogram point's `y_value` is
`int(x_0) + date2num(date)` with the whole day number added, not just its
fractional part. -/
theorem c4_amended (tz : Tz) (cm : String → Option Color) (entries : List Entry)
    (dots dotsH : List Dot) (x0 x0H : ℚ)
    (h : DotPlot_parse_entries tz cm entries = some (dots, x0))
    (hH : Histogram_parse_entries tz cm entries = some (dotsH, x0H)) :
    (∃ e s0, argminEntry entries = some e ∧ str_to_date tz e.creationDate = some s0 ∧
      x0 = dt2num s0 ∧ x0H = dt2num s0) ∧
    List.Forall₂ (DotSpecD tz cm x0) entries dots ∧
    List.Forall₂ (DotSpecH tz cm x0H) entries dotsH := by
  obtain ⟨⟨e, s0, hmin, hs0, hx0⟩, hfd⟩ := DotPlot_parse_entries_spec tz cm entries dots x0 h
  obtain ⟨⟨e₂, s₂, hmin₂, hs₂, hx₂⟩, hfh⟩ := Histogram_parse_entries_spec tz cm entries dotsH x0H hH
  refine ⟨⟨e, s0, hmin, hs0, hx0, ?_⟩, hfd, hfh⟩
  rw [hmin] at hmin₂
  injection hmin₂ with he₂
  subst he₂
  rw [hs0] at hs₂
  injection hs₂ with hse
  subst hse
  exact hx₂

theorem c4_witness :
    ((∃ e s0, argminEntry [(⟨"0001-01-02T03:30:00Z", some ["work"]⟩ : Entry)] = some e ∧
        str_to_date tzUTC e.creationDate = some s0 ∧
        (103 : ℚ)/48 = dt2num s0 ∧ (103 : ℚ)/48 = dt2num s0) ∧
      List.Forall₂ (DotSpecD tzUTC (calc_color_map cmapTest ["none", "work"]) (103/48))
        [⟨"0001-01-02T03:30:00Z", some ["work"]⟩]
        [⟨(1/2, 1/2, 1/2, 1), "work", 2, 103/48⟩] ∧
      List.Forall₂ (DotSpecH tzUTC (calc_color_map cmapTest ["none", "work"]) (103/48))
        [⟨"0001-01-02T03:30:00Z", some ["work"]⟩]
        [⟨(1/2, 1/2, 1/2, 1), "work", 2, 199/48⟩]) :=
  c4_amended tzUTC (calc_color_map cmapTest ["none", "work"])
    [⟨"0001-01-02T03:30:00Z", some ["work"]⟩]
    [⟨(1/2, 1/2, 1/2, 1), "work", 2, 103/48⟩]
    [⟨(1/2, 1/2, 1/2, 1), "work", 2, 199/48⟩]
    (103/48) (103/48)
    (by
      norm_num +decide [DotPlot_parse_entries, dotsFromEntriesDot, argminEntry,
        show str_to_date tzUTC "0001-01-02T03:30:00Z" = some 185400 from by decide,
        show dt2num 185400 = 103/48 from by norm_num [dt2num],
        show pyInt (103/48) = 2 from by norm_num [pyInt],
        show fracPart (103/48) = 7/48 from by norm_num [fracPart],
        show dayOfSecs 185400 = 2 from by decide,
        primaryTagOf, calc_color_map, dictUpd, pyNormalize, List.enum]
      simp [cmapTest])
    (by
      norm_num +decide [Histogram_parse_entries, dotsFromEntriesHist, argminEntry,
        show str_to_date tzUTC "0001-01-02T03:30:00Z" = some 185400 from by decide,
        show dt2num 185400 = 103/48 from by norm_num [dt2num],
        show pyInt (103/48) = 2 from by norm_num [pyInt],
        show dayOfSecs 185400 = 2 from by decide,
        primaryTagOf, calc_color_map, dictUpd, pyNormalize, List.enum]
      simp [cmapTest])

/-! ### C2 -/

/-- C2: the code resolves the viewer-timezone offset by interpreting the parsed
UTC digits as local wall-clock time, so at a DST boundary it disagrees with the
spec's requirement of resolving the offset at the entry's own instant:
`"2024-03-10T06:30:00Z"` in a US-Eastern-style zone is normalized by the code to
local 02:30 (EDT offset, −4h) whereas resolving at the entry's instant (still
EST, −5h) gives local 01:30.  Away from DST boundaries the two agree: the spec's
own example `"2024-01-15T14:30:00Z"` at fixed UTC−5 gives local 09:30. -/
theorem c2_eval :
    str_to_date eastern2024 "2024-03-10T06:30:00Z" = some (dtSecs 2024 3 10 2 30 0) ∧
    specNormalize easternInstant2024 "2024-03-10T06:30:00Z" = some (dtSecs 2024 3 10 1 30 0) ∧
    dtSecs 2024 3 10 2 30 0 ≠ dtSecs 2024 3 10 1 30 0 ∧
    str_to_date tzM300 "2024-01-15T14:30:00Z" = some (dtSecs 2024 1 15 9 30 0) := by
  exact ⟨by decide, by decide, by decide, by decide⟩

/-! ### C9 counterexample -/

/-- C9 (counterexample): parsing is not an exact match of the fixed format:
`"2024-1-15T14:30:00Z"` (single-digit month, not zero-padded) is accepted, and
`"2024-02-30T10:00:00Z"` matches the fixed `YYYY-MM-DDTHH:MM:SSZ` layout yet is
rejected because February 30 is not a valid calendar date. -/
theorem c9_counterexample :
    (strptimeDayOne "2024-1-15T14:30:00Z").isSome = true ∧
    specStrictFormat "2024-1-15T14:30:00Z" = false ∧
    strptimeDayOne "2024-02-30T10:00:00Z" = none ∧
    specStrictFormat "2024-02-30T10:00:00Z" = true := by
  exact ⟨by decide, by decide, by decide, by decide⟩

/-! ### C7 counterexample -/

/-- C7 (counterexample): with the sorted tag list `["home", "none", "work"]` and
an injective palette, the tag `"work"` is colored with the palette sample at
position 2/3 — its index in the **full** list divided by the full length 3 —
not at position 1/2 as the claim's ranking (rank 1 of 2 non-`"none"` tags)
prescribes. -/
theorem c7_counterexample :
    calc_color_map cmapTest ["home", "none", "work"] "work" = some (2/3, 2/3, 2/3, 1) ∧
    some ((2:ℚ)/3, (2:ℚ)/3, (2:ℚ)/3, (1:ℚ)) ≠
      some (cmapTest (1/2)) := by
  constructor
  · norm_num +decide [calc_color_map, dictUpd, pyNormalize, List.enum, cmapTest]
  · simp only [cmapTest, ne_eq, Option.some.injEq, Prod.mk.injEq]
    norm_num

/-! ### Hour bucketing lemmas -/

theorem fracPart_eq_fract (q : ℚ) : fracPart q = Int.fract q := rfl

theorem hourIdx_lt_24 (q : ℚ) : hourIdx q < 24 := by
  unfold hourIdx
  have h1 : fracPart q * 24 < 24 := by
    have h := Int.fract_lt_one q
    rw [fracPart_eq_fract]
    nlinarith
  have h2 : ⌊fracPart q * 24⌋ < (24 : ℤ) := Int.floor_lt.mpr (by exact_mod_cast h1)
  omega

theorem hourOfSecs_lt_24 (s : ℤ) : hourOfSecs s < 24 := by
  unfold hourOfSecs
  have h0 : 0 ≤ s.emod 86400 := Int.emod_nonneg s (by norm_num)
  have h1 : s.emod 86400 < 86400 := Int.emod_lt_of_pos s (by norm_num)
  have h2 : (s.emod 86400).ediv 3600 < 24 := by
    apply Int.ediv_lt_of_lt_mul (by norm_num)
    omega
  have h3 : 0 ≤ (s.emod 86400).ediv 3600 := Int.ediv_nonneg h0 (by norm_num)
  omega

theorem hourIdx_int_add_dt2num (n s : ℤ) :
    hourIdx ((n : ℚ) + dt2num s) = hourOfSecs s := by
  have h0 : 0 ≤ s.emod 86400 := Int.emod_nonneg s (by norm_num)
  have h1 : s.emod 86400 < 86400 := Int.emod_lt_of_pos s (by norm_num)
  have hs : s = 86400 * s.ediv 86400 + s.emod 86400 := (Int.ediv_add_emod s 86400).symm
  have hsq : (s : ℚ) = 86400 * ((s.ediv 86400 : ℤ) : ℚ) + ((s.emod 86400 : ℤ) : ℚ) := by
    exact_mod_cast congrArg (fun z : ℤ => (z : ℚ)) hs
  have hdt : dt2num s = ((s.ediv 86400 : ℤ) : ℚ) + ((s.emod 86400 : ℤ) : ℚ) / 86400 := by
    unfold dt2num
    rw [hsq]
    field_simp
    ring
  have hfr : fracPart ((n : ℚ) + dt2num s) = ((s.emod 86400 : ℤ) : ℚ) / 86400 := by
    rw [fracPart_eq_fract, hdt, ← add_assoc]
    rw [show ((n : ℚ) + ((s.ediv 86400 : ℤ) : ℚ)) = (((n + s.ediv 86400 : ℤ) : ℤ) : ℚ) by
      push_cast; ring]
    rw [Int.fract_int_add]
    refine Int.fract_eq_self.mpr ⟨by positivity, ?_⟩
    rw [div_lt_one (by norm_num)]
    exact_mod_cast h1
  unfold hourIdx hourOfSecs
  rw [hfr]
  have hmul : ((s.emod 86400 : ℤ) : ℚ) / 86400 * 24 = ((s.emod 86400 : ℤ) : ℚ) / 3600 := by
    field_simp
    ring
  rw [hmul]
  have hflr := Rat.floor_intCast_div_natCast (s.emod 86400) 3600
  norm_num at hflr
  rw [hflr]
  rfl

/-! ### Bucket counting lemmas -/

theorem getD_set_self_nat (l : List ℕ) (i : ℕ) (v : ℕ) (h : i < l.length) :
    (l.set i v).getD i 0 = v := by
  rw [List.getD_eq_getElem?_getD, List.getElem?_set_self (by simpa using h)]
  rfl

theorem getD_set_ne_nat (l : List ℕ) (i j : ℕ) (v : ℕ) (h : i ≠ j) :
    (l.set i v).getD j 0 = l.getD j 0 := by
  rw [List.getD_eq_getElem?_getD, List.getElem?_set_ne h, ← List.getD_eq_getElem?_getD]

theorem tagFreq_foldl_getD (tag : String) :
    ∀ (dots : List Dot) (acc : List ℕ), acc.length = 25 → ∀ hr : ℕ, hr < 25 →
      (dots.foldl
        (fun acc d =>
          if d.tag = tag then
            acc.set (hourIdx d.y_value) (acc.getD (hourIdx d.y_value) 0 + 1)
          else acc) acc).getD hr 0
        = acc.getD hr 0 + dots.countP (fun d => d.tag == tag && hourIdx d.y_value == hr) := by
  intro dots
  induction dots with
  | nil =>
    intro acc hlen hr hhr
    simp [List.countP_nil]
  | cons d ds ih =>
    intro acc hlen hr hhr
    simp only [List.foldl_cons, List.countP_cons]
    by_cases hd : d.tag = tag
    · rw [if_pos hd]
      have hlen' : (acc.set (hourIdx d.y_value) (acc.getD (hourIdx d.y_value) 0 + 1)).length
          = 25 := by
        rw [List.length_set]; exact hlen
      rw [ih _ hlen' hr hhr]
      by_cases hidx : hourIdx d.y_value = hr
      · rw [hidx, getD_set_self_nat _ _ _ (by rw [hlen]; exact hhr)]
        simp only [hd, hidx, beq_self_eq_true, Bool.and_self, if_pos]
        omega
      · rw [getD_set_ne_nat _ _ _ _ hidx]
        simp only [hd, beq_self_eq_true, Bool.true_and, beq_iff_eq, if_neg hidx]
        omega
    · rw [if_neg hd]
      rw [ih _ hlen hr hhr]
      have hfalse : (d.tag == tag && hourIdx d.y_value == hr) = false := by
        simp [hd]
      rw [hfalse]
      simp

theorem tagFreq_getD (tag : String) (dots : List Dot) (hr : ℕ) (hhr : hr < 25) :
    (tagFreq tag dots).getD hr 0
      = dots.countP (fun d => d.tag == tag && hourIdx d.y_value == hr) := by
  unfold tagFreq
  rw [tagFreq_foldl_getD tag dots (List.replicate 25 0) (by simp) hr hhr,
    getD_replicate_zero]
  omega

theorem getD_map_range {α : Type} (f : ℕ → α) (n hr : ℕ) (h : hr < n) (d : α) :
    ((List.range n).map f).getD hr d = f hr := by
  rw [List.getD_eq_getElem?_getD, List.getElem?_map, List.getElem?_range h]
  rfl

/-! ### Summation lemmas -/

theorem sum_map_add_nat {α : Type} (l : List α) (f g : α → ℕ) :
    (l.map (fun x => f x + g x)).sum = (l.map f).sum + (l.map g).sum := by
  induction l with
  | nil => rfl
  | cons a l ih =>
    simp only [List.map_cons, List.sum_cons, ih]
    omega

theorem sum_map_indicator_zero (a : String) :
    ∀ tags : List String, a ∉ tags →
      (tags.map (fun t => if a == t then (1 : ℕ) else 0)).sum = 0 := by
  intro tags
  induction tags with
  | nil => intro _; rfl
  | cons t ts ih =>
    intro hmem
    simp only [List.map_cons, List.sum_cons]
    rw [if_neg (by simpa using fun hc => hmem (by simp [hc])), ih (fun hc => hmem (by simp [hc]))]

theorem sum_map_indicator_one (a : String) :
    ∀ tags : List String, tags.Nodup → a ∈ tags →
      (tags.map (fun t => if a == t then (1 : ℕ) else 0)).sum = 1 := by
  intro tags
  induction tags with
  | nil => intro _ h; simp at h
  | cons t ts ih =>
    intro hnd hmem
    simp only [List.nodup_cons] at hnd
    simp only [List.map_cons, List.sum_cons]
    rcases List.mem_cons.mp hmem with rfl | hmem'
    · rw [if_pos (by simp), sum_map_indicator_zero a ts hnd.1]
    · rw [if_neg (by simpa using fun hc : a = t => hnd.1 (hc ▸ hmem')), ih hnd.2 hmem']

theorem sum_countP_tags (tags : List String) (p : Dot → Bool) :
    ∀ dots : List Dot, tags.Nodup → (∀ d ∈ dots, d.tag ∈ tags) →
      (tags.map (fun t => dots.countP (fun d => (d.tag == t) && p d))).sum
        = dots.countP p := by
  intro dots
  induction dots with
  | nil => intro _ _; simp
  | cons d ds ih =>
    intro hnd hmem
    have hd : d.tag ∈ tags := hmem d (List.mem_cons_self d ds)
    have ihs := ih hnd (fun x hx => hmem x (List.mem_cons_of_mem _ hx))
    simp only [List.countP_cons]
    have hmap : (tags.map (fun t => ds.countP (fun d' => (d'.tag == t) && p d')
        + if (d.tag == t) && p d then 1 else 0)).sum
        = (tags.map (fun t => ds.countP (fun d' => (d'.tag == t) && p d'))).sum
          + (tags.map (fun t => if (d.tag == t) && p d then 1 else 0)).sum :=
      sum_map_add_nat tags _ _
    rw [hmap, ihs]
    by_cases hp : p d = true
    · have h1 : (tags.map (fun t => if (d.tag == t) && p d then 1 else 0)).sum = 1 := by
        have : (fun t => if (d.tag == t) && p d then (1 : ℕ) else 0)
            = fun t => if d.tag == t then 1 else 0 := by
          funext t
          rw [hp]
          simp
        rw [this]
        exact sum_map_indicator_one d.tag tags hnd hd
      rw [h1, hp]
      simp
    · have hp' : p d = false := by revert hp; cases p d <;> simp
      have h0 : (tags.map (fun t => if (d.tag == t) && p d then 1 else 0)).sum = 0 := by
        have : (fun t => if (d.tag == t) && p d then (1 : ℕ) else 0) = fun t => 0 := by
          funext t
          rw [hp']
          simp
        rw [this]
        simp
      rw [h0, hp']
      simp

/-! ### Forall₂ transfer lemmas -/

theorem countP_eq_of_forall₂ {α β : Type} (R : α → β → Prop) (p : α → Bool) (q : β → Bool)
    (hpq : ∀ a b, R a b → p a = q b) :
    ∀ {as : List α} {bs : List β}, List.Forall₂ R as bs → as.countP p = bs.countP q := by
  intro as bs hf
  induction hf with
  | nil => rfl
  | cons hR hf ih =>
    simp only [List.countP_cons, ih, hpq _ _ hR]

theorem forall₂_mem_right {α β : Type} (R : α → β → Prop) :
    ∀ {as : List α} {bs : List β}, List.Forall₂ R as bs →
      ∀ b ∈ bs, ∃ a ∈ as, R a b := by
  intro as bs hf
  induction hf with
  | nil => intro b hb; simp at hb
  | cons hR hf ih =>
    intro b hb
    rcases List.mem_cons.mp hb with rfl | hb'
    · exact ⟨_, List.mem_cons_self _ _, hR⟩
    · obtain ⟨a, ha, hab⟩ := ih b hb'
      exact ⟨a, List.mem_cons_of_mem _ ha, hab⟩

/-! ### C3 -/

/-- C3: for every successful histogram pipeline run, the generated histogram has
one series per tag of the sorted tag list (in that order); every series has
exactly 25 buckets keyed by the day numbers of hours 0 through 24 of the origin
day `int(x_0)`; the hour-24 bucket of every series is zero; and for each hour
the counts across all tags sum to the number of entries whose normalized local
timestamp has that hour. -/
theorem c3_histogram (tz : Tz) (cmap0 : ℚ → Color) (entries : List Entry)
    (tags : List String) (dots : List Dot) (x0 : ℚ)
    (hist : List (String × List (ℚ × ℕ)))
    (h : histogramData tz cmap0 entries = some (tags, dots, x0, hist)) :
    hist.map Prod.fst = tags ∧
    (∀ t r, (t, r) ∈ hist →
      r.map Prod.fst =
        (List.range 25).map (fun (hr : ℕ) => ((pyInt x0 : ℤ) : ℚ) + (hr : ℚ) / 24) ∧
      (r.getD 24 ((0 : ℚ), (0 : ℕ))).2 = 0) ∧
    (∀ hr : ℕ, hr < 25 →
      (hist.map (fun pr => (pr.2.getD hr ((0 : ℚ), (0 : ℕ))).2)).sum
        = entries.countP (fun e => localHour tz e == some hr)) := by
  have hdata := h
  unfold histogramData at hdata
  cases hft : find_tags entries with
  | none => simp [hft] at hdata
  | some tags' =>
    simp only [hft] at hdata
    cases hpe : Histogram_parse_entries tz (calc_color_map cmap0 tags') entries with
    | none => simp [hpe] at hdata
    | some pr =>
      simp only [hpe, Option.some.injEq, Prod.mk.injEq] at hdata
      obtain ⟨rfl, rfl, rfl, rfl⟩ := hdata
      obtain ⟨-, hfa⟩ := Histogram_parse_entries_spec tz _ entries pr.1 pr.2 (by
        rw [hpe])
      obtain ⟨hsort, hnodup, hnone, hmemiff, -⟩ := find_tags_spec entries tags' hft
      have hdtag : ∀ d ∈ pr.1, d.tag ∈ tags' := by
        intro d hd
        obtain ⟨e, he, s, tag, hs, htag, _, hdt, _⟩ := forall₂_mem_right _ hfa d hd
        exact (hmemiff d.tag).mpr (Or.inr ⟨e, he, hdt ▸ htag⟩)
      refine ⟨?_, ?_, ?_⟩
      · unfold gen_hour_histogram_data
        simp [List.map_map, Function.comp_def]
      · intro t r htr
        unfold gen_hour_histogram_data at htr
        obtain ⟨t', ht', heq⟩ := List.mem_map.mp htr
        rw [Prod.ext_iff] at heq
        obtain ⟨heq1, heq2⟩ := heq
        dsimp only at heq1 heq2
        subst heq1
        subst heq2
        constructor
        · simp [List.map_map, Function.comp_def]
        · rw [getD_map_range _ 25 24 (by norm_num)]
          have h24 : (tagFreq t' pr.1).getD 24 0
              = pr.1.countP (fun d => d.tag == t' && hourIdx d.y_value == 24) :=
            tagFreq_getD t' pr.1 24 (by norm_num)
          have hzero : pr.1.countP (fun d => d.tag == t' && hourIdx d.y_value == 24) = 0 := by
            rw [List.countP_eq_zero]
            intro d _
            have := hourIdx_lt_24 d.y_value
            simp only [Bool.and_eq_true, beq_iff_eq]
            rintro ⟨-, h24'⟩
            omega
          simp only [h24, hzero]
      · intro hr hhr
        unfold gen_hour_histogram_data
        rw [List.map_map]
        have hmap : ((fun pr' : String × List (ℚ × ℕ) => (pr'.2.getD hr ((0 : ℚ), (0 : ℕ))).2) ∘
            (fun tag => (tag, (List.range 25).map (fun (h' : ℕ) =>
              (((pyInt pr.2 : ℤ) : ℚ) + (h' : ℚ) / 24, (tagFreq tag pr.1).getD h' 0)))))
            = fun tag => pr.1.countP (fun d => d.tag == tag && hourIdx d.y_value == hr) := by
          funext tag
          simp only [Function.comp]
          rw [getD_map_range _ 25 hr hhr]
          exact tagFreq_getD tag pr.1 hr hhr
        rw [hmap]
        rw [sum_countP_tags tags' (fun d => hourIdx d.y_value == hr) pr.1 hnodup hdtag]
        refine (countP_eq_of_forall₂ (DotSpecH tz (calc_color_map cmap0 tags') pr.2)
          (fun e => localHour tz e == some hr) (fun d => hourIdx d.y_value == hr)
          ?_ hfa).symm
        intro e d hR
        obtain ⟨s, tag, hs, htag, hc, hdt, hx, hy⟩ := hR
        dsimp only
        rw [hy, hourIdx_int_add_dt2num (pyInt pr.2) s]
        simp [localHour, hs]

theorem c3_witness :
    ((gen_hour_histogram_data ["none"] [⟨(0, 0, 0, 1), "none", 2, 4⟩] 2).map Prod.fst
        = ["none"] ∧
      (∀ t r, (t, r) ∈ gen_hour_histogram_data ["none"] [⟨(0, 0, 0, 1), "none", 2, 4⟩] 2 →
        r.map Prod.fst =
          (List.range 25).map (fun (hr : ℕ) => ((pyInt 2 : ℤ) : ℚ) + (hr : ℚ) / 24) ∧
        (r.getD 24 ((0 : ℚ), (0 : ℕ))).2 = 0) ∧
      (∀ hr : ℕ, hr < 25 →
        ((gen_hour_histogram_data ["none"] [⟨(0, 0, 0, 1), "none", 2, 4⟩] 2).map
            (fun pr => (pr.2.getD hr ((0 : ℚ), (0 : ℕ))).2)).sum
          = ([(⟨"0001-01-02T00:00:00Z", none⟩ : Entry)]).countP
              (fun e => localHour tzUTC e == some hr))) :=
  c3_histogram tzUTC cmapTest
    [⟨"0001-01-02T00:00:00Z", none⟩]
    ["none"]
    [⟨(0, 0, 0, 1), "none", 2, 4⟩]
    2
    (gen_hour_histogram_data ["none"] [⟨(0, 0, 0, 1), "none", 2, 4⟩] 2)
    (by
      norm_num +decide [histogramData, find_tags, firstTagsList, pySortedSet,
        List.insertionSort, List.orderedInsert, List.dedup,
        Histogram_parse_entries, dotsFromEntriesHist, argminEntry,
        show str_to_date tzUTC "0001-01-02T00:00:00Z" = some 172800 from by decide,
        show dt2num 172800 = 2 from by norm_num [dt2num],
        show pyInt 2 = 2 from by norm_num [pyInt],
        show dayOfSecs 172800 = 2 from by decide,
        primaryTagOf, calc_color_map, dictUpd, pyNormalize, List.enum, cmapTest])

/-! ### Round-trip lemmas for the strict fixed format -/

theorem isDigitC_digitChar (n : ℕ) : isDigitC (digitChar n) = true := by
  unfold digitChar
  split <;> decide

theorem digitVal_digitChar (n : ℕ) (h : n < 10) : digitVal (digitChar n) = n := by
  interval_cases n <;> decide

theorem mem_pad2_digit (n : ℕ) : ∀ c ∈ pad2 n, isDigitC c = true := by
  intro c hc
  simp only [pad2, List.mem_cons, List.not_mem_nil, or_false] at hc
  rcases hc with rfl | rfl <;> exact isDigitC_digitChar _

theorem mem_pad4_digit (n : ℕ) : ∀ c ∈ pad4 n, isDigitC c = true := by
  intro c hc
  simp only [pad4, List.mem_cons, List.not_mem_nil, or_false] at hc
  rcases hc with rfl | rfl | rfl | rfl <;> exact isDigitC_digitChar _

theorem natOfDigits_pad2 (n : ℕ) (h : n < 100) : natOfDigits (pad2 n) = n := by
  unfold natOfDigits pad2
  simp only [List.foldl_cons, List.foldl_nil]
  rw [digitVal_digitChar _ (by omega), digitVal_digitChar _ (by omega)]
  omega

theorem natOfDigits_pad4 (n : ℕ) (h : n < 10000) : natOfDigits (pad4 n) = n := by
  unfold natOfDigits pad4
  simp only [List.foldl_cons, List.foldl_nil]
  rw [digitVal_digitChar _ (by omega), digitVal_digitChar _ (by omega),
    digitVal_digitChar _ (by omega), digitVal_digitChar _ (by omega)]
  omega

theorem takeDigits_append (ds : List Char) (rest : List Char)
    (hds : ∀ c ∈ ds, isDigitC c = true)
    (hrest : ∀ c cs, rest = c :: cs → isDigitC c = false) :
    takeDigits (ds ++ rest) = (ds, rest) := by
  induction ds with
  | nil =>
    cases rest with
    | nil => rfl
    | cons c cs => simp [takeDigits, hrest c cs rfl]
  | cons d ds ih =>
    have hih := ih (fun c hc => hds c (List.mem_cons_of_mem _ hc))
    simp [takeDigits, hds d (List.mem_cons_self d ds), hih]

theorem daysInMonth_le_31 (y m : ℕ) : daysInMonth y m ≤ 31 := by
  unfold daysInMonth
  split
  · split <;> norm_num
  · split <;> norm_num

/-! ### C9 -/

/-- C9 (amended): the format check is lenient, not exact: every string in the
strict zero-padded `YYYY-MM-DDTHH:MM:SSZ` rendering of calendar-valid
components parses back to exactly those components, but acceptance is not
characterized by the fixed format — leading zeros may be dropped (1–2 digit
month, day, hour, minute, second), the `T`/`Z` letters are case-insensitive,
and strict-format strings denoting invalid calendar dates are rejected by the
constructor validation. -/
theorem c9_amended (dt : DateTime) (hv : validDT dt) :
    strptimeDayOne (renderStrict dt) = some dt := by
  obtain ⟨y, mo, d, hh, mi, s⟩ := dt
  simp only [validDT] at hv
  obtain ⟨h1, h2, h3, h4, h5, h6, h7, h8, h9⟩ := hv
  have hdm : daysInMonth y mo ≤ 31 := daysInMonth_le_31 y mo
  have hy : natOfDigits (pad4 y) = y := natOfDigits_pad4 y (by omega)
  have hmo : natOfDigits (pad2 mo) = mo := natOfDigits_pad2 mo (by omega)
  have hdd : natOfDigits (pad2 d) = d := natOfDigits_pad2 d (by omega)
  have hhh : natOfDigits (pad2 hh) = hh := natOfDigits_pad2 hh (by omega)
  have hmi : natOfDigits (pad2 mi) = mi := natOfDigits_pad2 mi (by omega)
  have hs : natOfDigits (pad2 s) = s := natOfDigits_pad2 s (by omega)
  simp only [renderStrict, strptimeDayOne]
  simp only [List.append_assoc, List.cons_append]
  rw [takeDigits_append (pad4 y) _ (mem_pad4_digit y)
    (by rintro c cs hc; cases hc; decide)]
  dsimp only
  rw [if_pos rfl]
  rw [takeDigits_append (pad2 mo) _ (mem_pad2_digit mo)
    (by rintro c cs hc; cases hc; decide)]
  dsimp only
  rw [if_pos rfl]
  rw [takeDigits_append (pad2 d) _ (mem_pad2_digit d)
    (by rintro c cs hc; cases hc; decide)]
  dsimp only
  rw [if_pos (Or.inl rfl)]
  rw [takeDigits_append (pad2 hh) _ (mem_pad2_digit hh)
    (by rintro c cs hc; cases hc; decide)]
  dsimp only
  rw [if_pos rfl]
  rw [takeDigits_append (pad2 mi) _ (mem_pad2_digit mi)
    (by rintro c cs hc; cases hc; decide)]
  dsimp only
  rw [if_pos rfl]
  rw [takeDigits_append (pad2 s) ['Z'] (mem_pad2_digit s)
    (by rintro c cs hc; cases hc; decide)]
  dsimp only
  rw [if_pos (Or.inl rfl)]
  rw [hy, hmo, hdd, hhh, hmi, hs]
  rw [if_pos ⟨rfl, Or.inr ⟨rfl, h3, h4⟩, Or.inr ⟨rfl, h5, by omega⟩,
    Or.inr ⟨rfl, h7⟩, Or.inr ⟨rfl, h8⟩, Or.inr ⟨rfl, by omega⟩⟩]
  rw [if_pos ⟨h1, h6, h9⟩]

theorem c9_witness :
    strptimeDayOne (renderStrict ⟨2024, 1, 15, 14, 30, 0⟩) =
      some ⟨2024, 1, 15, 14, 30, 0⟩ :=
  c9_amended ⟨2024, 1, 15, 14, 30, 0⟩ (by simp only [validDT]; decide)

end JournalTimes
